import Mathlib

/-!
Shallow embedding of `src/main.c` (6502 emulator interface on ATmega2560).

The program keeps three pieces of mutable state: a 4 KiB memory array, a
bounded table of breakpoints, and a run flag `cpu_running`.  The bus
responder `simulate_memory` samples the address/control/data pins once per
invocation, honours breakpoints and services one read or write transaction;
`step_cpu` pulses the clock and invokes the responder until the SYNC line
completes one assert-then-deassert transition; `handle_serial_command`
decodes single-byte commands from the serial stream.

Modelling choices:
* the memory array is a total function `Nat → Nat`; `write_memory` only
  updates indices below `MEMORY_SIZE`, exactly as the C bound check does;
* hardware pins sampled by the responder are grouped in `BusInput`
  (address lines, the RW line, the SYNC line, and the byte the CPU drives
  on the data bus during a write);
* actions on the 8-bit data-bus port (setting `DDRA`/`PORTA`) are recorded
  as a list of `BusEvent`s: `drive v` for "direction output, value v on
  the bus" and `release` for "direction input, bus not driven";
* every `send_string` / `send_byte` / `send_byte_hex` call is recorded as
  one `OutEvent`;
* the blocking serial read `receive_byte` becomes a partial function of the
  input byte stream: `none` models blocking forever on an exhausted stream.
  The UART data register is 8 bits wide, so a received byte is reduced
  mod 256;
* the unbounded `do/while` loop of `step_cpu` is run against a finite trace
  of bus inputs: `none` means the loop was still running when the trace
  ended, `some (s, n)` means it terminated after `n` iterations.
-/

namespace Mega2560

/-- `#define MEMORY_SIZE 4096` -/
def MEMORY_SIZE : Nat := 4096

/-- `#define MAX_BREAKPOINTS 10` -/
def MAX_BREAKPOINTS : Nat := 10

/-- `write_memory`: store `data` at `address` when `address < MEMORY_SIZE`
(returning 1), otherwise leave memory unchanged and return 0. -/
def write_memory (mem : Nat → Nat) (address data : Nat) : (Nat → Nat) × Bool :=
  if address < MEMORY_SIZE then
    (fun a => if a = address then data else mem a, true)
  else
    (mem, false)

/-- `read_memory`: return `(memory[address], 1)` when `address < MEMORY_SIZE`,
otherwise the sentinel `(0xFF, 0)`. -/
def read_memory (mem : Nat → Nat) (address : Nat) : Nat × Bool :=
  if address < MEMORY_SIZE then (mem address, true) else (0xFF, false)

/-- The linear breakpoint scan of `simulate_memory` (the `for` loop over
`breakpoints[0 .. breakpoint_count)`). -/
def bp_contains (bps : List Nat) (address : Nat) : Bool :=
  match bps with
  | [] => false
  | b :: rest => if address = b then true else bp_contains rest address

/-- The breakpoint-insertion step of the `'B'` command: reject when the
table already holds `MAX_BREAKPOINTS` entries, otherwise append. -/
def bp_add (bps : List Nat) (address : Nat) : List Nat × Bool :=
  if MAX_BREAKPOINTS ≤ bps.length then (bps, false) else (bps ++ [address], true)

/-- One action on the data-bus port. `drive v` models `DATA_DIR = 0xFF;
DATA_BUS = v` (the ATmega asserts `v` on the data lines); `release` models
`DATA_DIR = 0x00` (lines tri-stated / input). -/
inductive BusEvent where
  | drive (value : Nat)
  | release
deriving DecidableEq, Repr

/-- One serial-output action: `str` for `send_string`, `raw` for a raw
`send_byte`, `hex` for `send_byte_hex`. -/
inductive OutEvent where
  | str (s : String)
  | raw (b : Nat)
  | hex (b : Nat)
deriving DecidableEq, Repr

/-- The pins sampled during one responder invocation: the 16 address lines,
the RW line (`true` = CPU read), the SYNC line, and the byte present on the
data bus when the CPU is the driver. -/
structure BusInput where
  address : Nat
  rw : Bool
  sync : Bool
  pin : Nat
deriving DecidableEq, Repr

/-- The program's global mutable state: `memory[]`, `breakpoints[]` (with
`breakpoint_count` as the list length) and `cpu_running`. -/
structure SimState where
  mem : Nat → Nat
  bps : List Nat
  running : Bool

/-- `halt_cpu`: `cpu_running = 0`. -/
def halt_cpu (s : SimState) : SimState := { s with running := false }

/-- `release_cpu`: `cpu_running = 1`. -/
def release_cpu (s : SimState) : SimState := { s with running := true }

/-- `reset_cpu`: pulse the reset line (not otherwise modelled) and set
`cpu_running = 1`. -/
def reset_cpu (s : SimState) : SimState := { s with running := true }

/-- Result of one `simulate_memory` invocation: the updated global state,
the serial output emitted, and the actions performed on the data bus. -/
structure SimResult where
  state : SimState
  out : List OutEvent
  events : List BusEvent

/-- `simulate_memory`: sample the bus, halt and notify on a breakpoint hit,
then service the read or write transaction.  Note that a breakpoint hit
does not skip the transaction: the code falls through to the RW branch. -/
def simulate_memory (s : SimState) (inp : BusInput) : SimResult :=
  let hit := bp_contains s.bps inp.address
  let s1 := if hit then halt_cpu s else s
  let out1 : List OutEvent :=
    if hit then
      [.str "Breakpoint reached at address: 0x", .hex (inp.address / 256),
       .hex (inp.address % 256), .str "\n"]
    else []
  if inp.rw then
    let r := read_memory s1.mem inp.address
    if r.2 then
      { state := s1, out := out1, events := [.drive r.1, .release] }
    else
      { state := s1, out := out1, events := [.drive 0xFF, .release] }
  else
    let w := write_memory s1.mem inp.address inp.pin
    { state := { s1 with mem := w.1 }, out := out1, events := [.release] }

/-- The control skeleton of the `step_cpu` loop, as a function of the
successive SYNC samples only: `sync_count h l` returns `some n` when the
loop (entered with `sync_high = h`) terminates after consuming `n` samples
of `l`, and `none` when it is still running once `l` is exhausted. -/
def sync_count : Bool → List Bool → Option Nat
  | _, [] => none
  | h, b :: rest =>
    if b then (sync_count true rest).map (· + 1)
    else if h then some 1
    else (sync_count false rest).map (· + 1)

/-- Number of complete SYNC assert-then-deassert transitions in a sample
list, threading the `sync_high` flag like the loop does. -/
def riseFallCount : Bool → List Bool → Nat
  | _, [] => 0
  | h, b :: rest =>
    if b then riseFallCount true rest
    else if h then riseFallCount false rest + 1
    else riseFallCount false rest

/-- The `do { ... } while (1)` loop of `step_cpu`, run against a finite
trace of bus inputs (one entry per generated clock pulse).  Each iteration
invokes `simulate_memory`, then checks SYNC: a rising edge sets
`sync_high`, a falling edge after it terminates the loop.  `none` means
the trace ended with the loop still spinning; `some (s, n)` is the final
state and the number of iterations (= `simulate_memory` invocations). -/
def step_loop (sync_high : Bool) (s : SimState) :
    List BusInput → Option (SimState × Nat)
  | [] => none
  | inp :: rest =>
    let r := simulate_memory s inp
    if inp.sync then
      (step_loop true r.state rest).map (fun p => (p.1, p.2 + 1))
    else if sync_high then
      some (r.state, 1)
    else
      (step_loop false r.state rest).map (fun p => (p.1, p.2 + 1))

/-- `step_cpu`: halt the CPU, then drive clock pulses and run the
responder until one SYNC assert-then-deassert transition completes. -/
def step_cpu (s : SimState) (bus : List BusInput) : Option (SimState × Nat) :=
  step_loop false (halt_cpu s) bus

/-- `receive_byte`: blocking read of one byte from the serial stream.
`none` models blocking forever on an exhausted stream; the UART data
register is 8 bits wide, so the value is reduced mod 256. -/
def receive_byte : List Nat → Option (Nat × List Nat)
  | [] => none
  | b :: rest => some (b % 256, rest)

/-- The `for` loop of the `'L'` (load) command, started at offset `i`:
receive a byte, write it at `address + i` (16-bit wrap-around addition),
stop with an error message at the first failing write.  Returns the final
memory, the final loop index `i`, the unconsumed input and the output. -/
def load_loop (mem : Nat → Nat) (address size i : Nat) (input : List Nat) :
    Option ((Nat → Nat) × Nat × List Nat × List OutEvent) :=
  if _h : i < size then
    match input with
    | [] => none
    | d :: rest =>
      let w := write_memory mem ((address + i) % 65536) (d % 256)
      if w.2 then load_loop w.1 address size (i + 1) rest
      else some (mem, i, rest, [.str "Error: Invalid address during load.\n"])
  else some (mem, i, input, [])
termination_by size - i

/-- The `'L'` command body after the address and size have been parsed:
run the load loop from offset 0 and report success when the loop ran to
completion (`i == size`). -/
def load_cmd (mem : Nat → Nat) (address size : Nat) (input : List Nat) :
    Option ((Nat → Nat) × List Nat × List OutEvent) := do
  let (mem2, i, rest, out1) ← load_loop mem address size 0 input
  some (mem2, rest,
    out1 ++ if i = size then [OutEvent.str "Data loaded successfully.\n"] else [])

/-- `handle_serial_command`: read one command byte and dispatch.  `input`
is the serial byte stream, `bus` the bus-input trace consumed by a `'S'`
(step) command.  Returns the new state, the unconsumed input and the
serial output; `none` models blocking forever (exhausted stream, or a step
whose SYNC transition never completes). -/
def handle_serial_command (s : SimState) (input : List Nat)
    (bus : List BusInput) : Option (SimState × List Nat × List OutEvent) := do
  let (command, in0) ← receive_byte input
  match command with
  | 82 => -- 'R': reset CPU
    some (reset_cpu s, in0, [.str "CPU reset.\n"])
  | 72 => -- 'H': halt CPU
    some (halt_cpu s, in0, [.str "CPU halted.\n"])
  | 67 => -- 'C': continue CPU
    some (release_cpu s, in0, [.str "CPU continued.\n"])
  | 83 => -- 'S': step CPU
    match step_cpu s bus with
    | none => none
    | some (s2, _) =>
      some (s2, in0, [.str "CPU stepped one instruction.\n"])
  | 87 => do -- 'W': write memory
    let (ah, in1) ← receive_byte in0
    let (al, in2) ← receive_byte in1
    let address := ah * 256 + al
    let (d, in3) ← receive_byte in2
    let w := write_memory s.mem address d
    if w.2 then
      some ({ s with mem := w.1 }, in3,
        [.str "Memory written at address 0x", .hex (address / 256),
         .hex (address % 256), .str ".\n"])
    else
      some (s, in3, [.str "Error: Invalid address.\n"])
  | 77 => do -- 'M': read memory
    let (ah, in1) ← receive_byte in0
    let (al, in2) ← receive_byte in1
    let address := ah * 256 + al
    let r := read_memory s.mem address
    if r.2 then some (s, in2, [.raw r.1])
    else some (s, in2, [.str "Error: Invalid address.\n"])
  | 76 => do -- 'L': load data into memory
    let (ah, in1) ← receive_byte in0
    let (al, in2) ← receive_byte in1
    let address := ah * 256 + al
    let (sh, in3) ← receive_byte in2
    let (sl, in4) ← receive_byte in3
    let size := sh * 256 + sl
    let (mem2, rest, out) ← load_cmd s.mem address size in4
    some ({ s with mem := mem2 }, rest, out)
  | 66 => -- 'B': set breakpoint
    if MAX_BREAKPOINTS ≤ s.bps.length then
      some (s, in0, [.str "Error: Maximum number of breakpoints reached.\n"])
    else do
      let (ah, in1) ← receive_byte in0
      let (al, in2) ← receive_byte in1
      let address := ah * 256 + al
      some ({ s with bps := (bp_add s.bps address).1 }, in2,
        [.str "Breakpoint set at address 0x", .hex (address / 256),
         .hex (address % 256), .str ".\n"])
  | 71 => -- 'G': get registers (not implemented)
    some (s, in0, [.str "Error: Register reading not supported.\n"])
  | _ =>
    some (s, in0, [.str "Error: Unknown command.\n"])

/-- `calculate_checksum`: the C loop `for (i = 0; i < length; i++)
checksum ^= data[i]` over the buffer, as a left fold starting from 0. -/
def calculate_checksum (data : List Nat) : Nat :=
  data.foldl (fun checksum b => checksum ^^^ b) 0

/-- Specification-side description of the checksum: the XOR of all bytes
of the buffer, written as a right fold. -/
def xor_all (data : List Nat) : Nat :=
  data.foldr (fun b acc => b ^^^ acc) 0

/-- A sequence of consecutive breakpoint-insertion operations: iterate
`bp_add` over a list of addresses, returning the final table and the
success flag of each insertion in order. -/
def add_seq (bps : List Nat) : List Nat → List Nat × List Bool
  | [] => (bps, [])
  | a :: rest =>
    let r := bp_add bps a
    let rr := add_seq r.1 rest
    (rr.1, r.2 :: rr.2)

/-! ## Helper lemmas -/

theorem bp_contains_iff (bps : List Nat) (a : Nat) :
    bp_contains bps a = true ↔ a ∈ bps := by
  induction bps with
  | nil => simp [bp_contains]
  | cons b rest ih =>
    by_cases h : a = b <;> simp [bp_contains, h, ih]

theorem add_seq_under_capacity (addrs bps : List Nat)
    (h : bps.length + addrs.length ≤ MAX_BREAKPOINTS) :
    add_seq bps addrs = (bps ++ addrs, List.replicate addrs.length true) := by
  induction addrs generalizing bps with
  | nil => simp [add_seq]
  | cons a rest ih =>
    have hlt : ¬ MAX_BREAKPOINTS ≤ bps.length := by
      simp only [List.length_cons] at h; omega
    have hrec : (bps ++ [a]).length + rest.length ≤ MAX_BREAKPOINTS := by
      simp only [List.length_append, List.length_cons, List.length_nil] at h ⊢
      omega
    simp [add_seq, bp_add, hlt, ih _ hrec, List.replicate_succ]

theorem checksum_foldl_shift (data : List Nat) (acc : Nat) :
    data.foldl (fun checksum b => checksum ^^^ b) acc = acc ^^^ xor_all data := by
  induction data generalizing acc with
  | nil => simp [xor_all]
  | cons b rest ih =>
    simp only [List.foldl_cons, ih, xor_all, List.foldr_cons]
    rw [Nat.xor_assoc]

/-! ## Claim theorems -/

/-- C2: for every address `a < MEMORY_SIZE` and byte `b`, `write_memory a b`
succeeds and a subsequent `read_memory a` yields `(b, true)`. -/
theorem write_then_read_roundtrip (mem : Nat → Nat) (a b : Nat)
    (ha : a < MEMORY_SIZE) (hb : b < 256) :
    (write_memory mem a b).2 = true ∧
    read_memory (write_memory mem a b).1 a = (b, true) := by
  simp [write_memory, read_memory, ha]

/-- Witness for C2 at address 0x0010, byte 0x42. -/
theorem write_then_read_roundtrip_witness :
    (16 : Nat) < MEMORY_SIZE ∧ (66 : Nat) < 256 ∧
    ((write_memory (fun _ => 0) 16 66).2 = true ∧
     read_memory (write_memory (fun _ => 0) 16 66).1 16 = (66, true)) :=
  ⟨by decide, by decide,
   write_then_read_roundtrip (fun _ => 0) 16 66 (by decide) (by decide)⟩

/-- C3: for every out-of-range address (`MEMORY_SIZE ≤ a < 2^16`) and byte
`b`, `write_memory` fails leaving every stored byte unchanged, and
`read_memory` returns the sentinel `(0xFF, false)`. -/
theorem write_read_out_of_range (mem : Nat → Nat) (a b : Nat)
    (ha : MEMORY_SIZE ≤ a) (ha2 : a < 65536) (hb : b < 256) :
    (write_memory mem a b).2 = false ∧
    (∀ x, (write_memory mem a b).1 x = mem x) ∧
    read_memory mem a = (0xFF, false) := by
  have h : ¬ a < MEMORY_SIZE := by omega
  simp [write_memory, read_memory, h]

/-- Witness for C3 at address 0x2000 (8192), byte 7. -/
theorem write_read_out_of_range_witness :
    MEMORY_SIZE ≤ (8192 : Nat) ∧ (8192 : Nat) < 65536 ∧ (7 : Nat) < 256 ∧
    ((write_memory (fun _ => 3) 8192 7).2 = false ∧
     (∀ x, (write_memory (fun _ => 3) 8192 7).1 x = (fun _ => (3 : Nat)) x) ∧
     read_memory (fun _ => 3) 8192 = (0xFF, false)) :=
  ⟨by decide, by decide, by decide,
   write_read_out_of_range (fun _ => 3) 8192 7 (by decide) (by decide) (by decide)⟩

/-- C4: starting from an empty breakpoint table, `MAX_BREAKPOINTS` (10)
consecutive adds all succeed, the next add fails, and afterwards
`bp_contains` is true for every inserted address and false for any address
never inserted. -/
theorem breakpoint_table_capacity (addrs : List Nat) (x y : Nat)
    (hlen : addrs.length = MAX_BREAKPOINTS) (hy : y ∉ addrs) :
    (∀ ok ∈ (add_seq [] addrs).2, ok = true) ∧
    (add_seq [] addrs).2.length = MAX_BREAKPOINTS ∧
    (bp_add (add_seq [] addrs).1 x).2 = false ∧
    (∀ a ∈ addrs, bp_contains (add_seq [] addrs).1 a = true) ∧
    bp_contains (add_seq [] addrs).1 y = false := by
  have hcap : (([] : List Nat)).length + addrs.length ≤ MAX_BREAKPOINTS := by
    simp [hlen]
  rw [add_seq_under_capacity addrs [] hcap]
  refine ⟨?_, ?_, ?_, ?_, ?_⟩
  · intro ok hok
    exact List.eq_of_mem_replicate hok
  · simp [hlen]
  · simp [bp_add, hlen]
  · intro a ha
    rw [bp_contains_iff]
    simpa using ha
  · rw [← Bool.not_eq_true, bp_contains_iff]
    simpa using hy

/-- Witness for C4: ten distinct addresses, an eleventh add of 11, and 42
never inserted. -/
theorem breakpoint_table_capacity_witness :
    ([0, 1, 2, 3, 4, 5, 6, 7, 8, 9] : List Nat).length = MAX_BREAKPOINTS ∧
    (42 : Nat) ∉ ([0, 1, 2, 3, 4, 5, 6, 7, 8, 9] : List Nat) ∧
    ((∀ ok ∈ (add_seq [] [0, 1, 2, 3, 4, 5, 6, 7, 8, 9]).2, ok = true) ∧
     (add_seq [] [0, 1, 2, 3, 4, 5, 6, 7, 8, 9]).2.length = MAX_BREAKPOINTS ∧
     (bp_add (add_seq [] [0, 1, 2, 3, 4, 5, 6, 7, 8, 9]).1 11).2 = false ∧
     (∀ a ∈ ([0, 1, 2, 3, 4, 5, 6, 7, 8, 9] : List Nat),
        bp_contains (add_seq [] [0, 1, 2, 3, 4, 5, 6, 7, 8, 9]).1 a = true) ∧
     bp_contains (add_seq [] [0, 1, 2, 3, 4, 5, 6, 7, 8, 9]).1 42 = false) :=
  ⟨by decide, by decide,
   breakpoint_table_capacity [0, 1, 2, 3, 4, 5, 6, 7, 8, 9] 11 42
     (by decide) (by decide)⟩

/-- C8: on a cycle whose sampled RW line indicates a CPU write, the
responder performs no `drive` action on the data lines: the only data-bus
action is setting the direction to input (`release`). -/
theorem write_cycle_never_drives (s : SimState) (inp : BusInput)
    (h : inp.rw = false) :
    (simulate_memory s inp).events = [BusEvent.release] ∧
    ∀ v, BusEvent.drive v ∉ (simulate_memory s inp).events := by
  have hev : (simulate_memory s inp).events = [BusEvent.release] := by
    simp [simulate_memory, h]
  refine ⟨hev, ?_⟩
  intro v
  rw [hev]
  simp

/-- Witness for C8 on a concrete write cycle. -/
theorem write_cycle_never_drives_witness :
    (BusInput.mk 5 false false 7).rw = false ∧
    ((simulate_memory (SimState.mk (fun _ => 0) [] true)
        (BusInput.mk 5 false false 7)).events = [BusEvent.release] ∧
     ∀ v, BusEvent.drive v ∉
       (simulate_memory (SimState.mk (fun _ => 0) [] true)
          (BusInput.mk 5 false false 7)).events) :=
  ⟨rfl, write_cycle_never_drives (SimState.mk (fun _ => 0) [] true)
    (BusInput.mk 5 false false 7) rfl⟩

/-- C1 (counterexample): the claim "no data value is asserted on the data
lines during a breakpoint cycle" is false.  With breakpoint 5 set and the
CPU reading address 5, the responder halts and notifies but still drives
the data lines with the memory byte. -/
theorem breakpoint_cycle_still_drives_data :
    bp_contains (SimState.mk (fun _ => 0) [5] true).bps
      (BusInput.mk 5 true false 0).address = true ∧
    (simulate_memory (SimState.mk (fun _ => 0) [5] true)
       (BusInput.mk 5 true false 0)).events =
      [BusEvent.drive 0, BusEvent.release] := by
  exact ⟨rfl, rfl⟩

/-- C1 (amended): on a breakpoint hit the responder sets `cpu_running` to 0
and emits the breakpoint-reached notification with the address, but the
data transaction still proceeds: on a read cycle the data lines are driven
with the resolved memory byte as usual. -/
theorem breakpoint_halts_and_notifies (s : SimState) (inp : BusInput)
    (h : bp_contains s.bps inp.address = true) :
    (simulate_memory s inp).state.running = false ∧
    (simulate_memory s inp).out =
      [OutEvent.str "Breakpoint reached at address: 0x",
       OutEvent.hex (inp.address / 256), OutEvent.hex (inp.address % 256),
       OutEvent.str "\n"] ∧
    (inp.rw = true →
      (simulate_memory s inp).events =
        [BusEvent.drive (read_memory s.mem inp.address).1, BusEvent.release]) := by
  by_cases hrw : inp.rw
  · by_cases hok : inp.address < MEMORY_SIZE <;>
      simp [simulate_memory, h, hrw, halt_cpu, read_memory, hok]
  · simp [simulate_memory, h, hrw, halt_cpu]

/-- Witness for C1's amended theorem at breakpoint address 5. -/
theorem breakpoint_halts_and_notifies_witness :
    bp_contains (SimState.mk (fun _ => 3) [5] true).bps
      (BusInput.mk 5 true false 0).address = true ∧
    ((simulate_memory (SimState.mk (fun _ => 3) [5] true)
        (BusInput.mk 5 true false 0)).state.running = false ∧
     (simulate_memory (SimState.mk (fun _ => 3) [5] true)
        (BusInput.mk 5 true false 0)).out =
       [OutEvent.str "Breakpoint reached at address: 0x",
        OutEvent.hex ((BusInput.mk 5 true false 0).address / 256),
        OutEvent.hex ((BusInput.mk 5 true false 0).address % 256),
        OutEvent.str "\n"] ∧
     ((BusInput.mk 5 true false 0).rw = true →
       (simulate_memory (SimState.mk (fun _ => 3) [5] true)
          (BusInput.mk 5 true false 0)).events =
         [BusEvent.drive (read_memory (fun _ => 3) 5).1, BusEvent.release])) :=
  ⟨rfl, breakpoint_halts_and_notifies (SimState.mk (fun _ => 3) [5] true)
    (BusInput.mk 5 true false 0) rfl⟩

theorem simulate_memory_keeps_halted (s : SimState) (inp : BusInput)
    (h : s.running = false) :
    (simulate_memory s inp).state.running = false := by
  by_cases hit : bp_contains s.bps inp.address <;>
    by_cases hrw : inp.rw <;>
      by_cases hok : inp.address < MEMORY_SIZE <;>
        simp [simulate_memory, hit, hrw, hok, halt_cpu, read_memory, h]

theorem foldl_simulate_memory_keeps_halted (bus : List BusInput) (s : SimState)
    (h : s.running = false) :
    (bus.foldl (fun st inp => (simulate_memory st inp).state) s).running = false := by
  induction bus generalizing s with
  | nil => exact h
  | cons inp rest ih =>
    exact ih _ (simulate_memory_keeps_halted s inp h)

theorem step_loop_eq_sync_count (bus : List BusInput) (h : Bool) (s : SimState) :
    step_loop h s bus = (sync_count h (bus.map BusInput.sync)).map
      (fun n => ((bus.take n).foldl (fun st inp => (simulate_memory st inp).state) s, n)) := by
  induction bus generalizing h s with
  | nil => rfl
  | cons inp rest ih =>
    by_cases hsync : inp.sync
    · simp only [step_loop, hsync, if_true, List.map_cons, sync_count, ih]
      cases hsc : sync_count true (rest.map BusInput.sync) with
      | none => simp
      | some n => simp [List.take_succ_cons]
    · by_cases hh : h
      · simp [step_loop, hsync, hh, sync_count, List.take_succ_cons]
      · simp only [step_loop, hsync, if_false, hh, List.map_cons, sync_count,
          Bool.false_eq_true, ih]
        cases hsc : sync_count false (rest.map BusInput.sync) with
        | none => simp
        | some n => simp [List.take_succ_cons]

theorem sync_count_true_some (l : List Bool)
    (h : ∃ j, l.get? j = some false) : ∃ n, sync_count true l = some n := by
  induction l with
  | nil =>
    obtain ⟨j, hj⟩ := h
    simp [List.get?_nil] at hj
  | cons b rest ih =>
    cases hb : b
    · exact ⟨1, by simp [sync_count, hb]⟩
    · obtain ⟨j, hj⟩ := h
      have hrest : ∃ j, rest.get? j = some false := by
        cases j with
        | zero => simp [List.get?_cons_zero, hb] at hj
        | succ j => exact ⟨j, by simpa [List.get?_cons_succ] using hj⟩
      obtain ⟨m, hm⟩ := ih hrest
      exact ⟨m + 1, by simp [sync_count, hb, hm]⟩

theorem sync_count_false_some (l : List Bool)
    (h : ∃ i j, i < j ∧ l.get? i = some true ∧ l.get? j = some false) :
    ∃ n, sync_count false l = some n := by
  induction l with
  | nil =>
    obtain ⟨i, j, _, hi, _⟩ := h
    simp [List.get?_nil] at hi
  | cons b rest ih =>
    obtain ⟨i, j, hij, hi, hj⟩ := h
    obtain ⟨j, rfl⟩ : ∃ j', j = j' + 1 := by
      cases j with
      | zero => omega
      | succ j => exact ⟨j, rfl⟩
    rw [List.get?_cons_succ] at hj
    cases hb : b
    · obtain ⟨i, rfl⟩ : ∃ i', i = i' + 1 := by
        cases i with
        | zero => rw [List.get?_cons_zero, hb] at hi; simp at hi
        | succ i => exact ⟨i, rfl⟩
      rw [List.get?_cons_succ] at hi
      obtain ⟨m, hm⟩ := ih ⟨i, j, by omega, hi, hj⟩
      exact ⟨m + 1, by simp [sync_count, hb, hm]⟩
    · obtain ⟨m, hm⟩ := sync_count_true_some rest ⟨j, hj⟩
      exact ⟨m + 1, by simp [sync_count, hb, hm]⟩

theorem sync_count_pos (l : List Bool) (h : Bool) (n : Nat)
    (hn : sync_count h l = some n) : 1 ≤ n := by
  cases l with
  | nil => simp [sync_count] at hn
  | cons b rest =>
    by_cases hb : b = true
    · simp only [sync_count, hb, if_true] at hn
      cases hsc : sync_count true rest with
      | none => rw [hsc, Option.map_none'] at hn; exact Option.noConfusion hn
      | some m =>
        rw [hsc, Option.map_some', Option.some.injEq] at hn
        omega
    · by_cases hh : h = true
      · simp only [sync_count, if_neg hb, if_pos hh, Option.some.injEq] at hn
        omega
      · simp only [sync_count, if_neg hb, if_neg hh] at hn
        cases hsc : sync_count false rest with
        | none => rw [hsc, Option.map_none'] at hn; exact Option.noConfusion hn
        | some m =>
          rw [hsc, Option.map_some', Option.some.injEq] at hn
          omega

theorem sync_count_riseFall (l : List Bool) (h : Bool) (n : Nat)
    (hn : sync_count h l = some n) : riseFallCount h (l.take n) = 1 := by
  induction l generalizing h n with
  | nil => simp [sync_count] at hn
  | cons b rest ih =>
    by_cases hb : b = true
    · simp only [sync_count, hb, if_true] at hn
      cases hsc : sync_count true rest with
      | none => rw [hsc, Option.map_none'] at hn; exact Option.noConfusion hn
      | some m =>
        rw [hsc, Option.map_some', Option.some.injEq] at hn
        subst hn
        simp only [List.take_succ_cons, riseFallCount, hb, if_true]
        exact ih true m hsc
    · by_cases hh : h = true
      · simp only [sync_count, if_neg hb, if_pos hh, Option.some.injEq] at hn
        subst hn
        simp [riseFallCount, hb, hh]
      · simp only [sync_count, if_neg hb, if_neg hh] at hn
        cases hsc : sync_count false rest with
        | none => rw [hsc, Option.map_none'] at hn; exact Option.noConfusion hn
        | some m =>
          rw [hsc, Option.map_some', Option.some.injEq] at hn
          subst hn
          simp only [List.take_succ_cons, riseFallCount, if_neg hb, if_neg hh]
          exact ih false m hsc

theorem sync_count_true_none (l : List Bool)
    (h : ∀ j, l.get? j ≠ some false) : sync_count true l = none := by
  induction l with
  | nil => rfl
  | cons b rest ih =>
    by_cases hb : b = true
    · have hrest : ∀ j, rest.get? j ≠ some false := by
        intro j
        have hj := h (j + 1)
        rwa [List.get?_cons_succ] at hj
      simp [sync_count, hb, ih hrest]
    · have hb0 : b = false := by simpa using hb
      exact absurd (by rw [List.get?_cons_zero, hb0]) (h 0)

theorem sync_count_false_none (l : List Bool)
    (h : ∀ i j, i < j → l.get? i = some true → l.get? j ≠ some false) :
    sync_count false l = none := by
  induction l with
  | nil => rfl
  | cons b rest ih =>
    by_cases hb : b = true
    · have hrest : ∀ j, rest.get? j ≠ some false := by
        intro j
        have hj := h 0 (j + 1) (by omega) (by rw [List.get?_cons_zero, hb])
        rwa [List.get?_cons_succ] at hj
      simp [sync_count, hb, sync_count_true_none rest hrest]
    · have hrest : ∀ i j, i < j → rest.get? i = some true →
          rest.get? j ≠ some false := by
        intro i j hij hi
        have hj := h (i + 1) (j + 1) (by omega) (by rwa [List.get?_cons_succ])
        rwa [List.get?_cons_succ] at hj
      simp [sync_count, hb, ih hrest]

/-- C5: when the bus trace completes a SYNC assert-then-deassert
transition, `step_cpu` terminates, invokes the responder at least once
(`n` counts `simulate_memory` invocations), exits with `cpu_running = 0`,
and the consumed prefix of the trace contains exactly one complete SYNC
assert-then-deassert transition. -/
theorem step_cpu_terminates_after_one_sync (s : SimState) (bus : List BusInput)
    (h : ∃ i j, i < j ∧ (bus.map BusInput.sync).get? i = some true ∧
         (bus.map BusInput.sync).get? j = some false) :
    ∃ s' n, step_cpu s bus = some (s', n) ∧ s'.running = false ∧ 1 ≤ n ∧
      riseFallCount false ((bus.map BusInput.sync).take n) = 1 := by
  obtain ⟨n, hn⟩ := sync_count_false_some (bus.map BusInput.sync) h
  refine ⟨(bus.take n).foldl (fun st inp => (simulate_memory st inp).state)
      (halt_cpu s), n, ?_, ?_, ?_, ?_⟩
  · rw [step_cpu, step_loop_eq_sync_count, hn, Option.map_some']
  · exact foldl_simulate_memory_keeps_halted _ _ rfl
  · exact sync_count_pos _ false n hn
  · exact sync_count_riseFall _ false n hn

/-- Witness for C5: a two-cycle trace whose SYNC samples are
`[true, false]`. -/
theorem step_cpu_terminates_after_one_sync_witness :
    (∃ i j, i < j ∧
      (([BusInput.mk 0 true true 0, BusInput.mk 1 true false 0].map
          BusInput.sync).get? i = some true) ∧
      (([BusInput.mk 0 true true 0, BusInput.mk 1 true false 0].map
          BusInput.sync).get? j = some false)) ∧
    (∃ s' n, step_cpu (SimState.mk (fun _ => 0) [] true)
        [BusInput.mk 0 true true 0, BusInput.mk 1 true false 0] = some (s', n) ∧
      s'.running = false ∧ 1 ≤ n ∧
      riseFallCount false
        (([BusInput.mk 0 true true 0, BusInput.mk 1 true false 0].map
            BusInput.sync).take n) = 1) :=
  ⟨⟨0, 1, by decide, rfl, rfl⟩,
   step_cpu_terminates_after_one_sync (SimState.mk (fun _ => 0) [] true)
     [BusInput.mk 0 true true 0, BusInput.mk 1 true false 0]
     ⟨0, 1, by decide, rfl, rfl⟩⟩

/-- C6: the stepping loop has no iteration bound.  On any finite bus trace
in which SYNC never completes an assert-then-deassert transition,
`step_cpu` is still looping when the trace ends (result `none`), however
long the trace is; contrapositively, it terminates only when such a
transition is observed. -/
theorem step_cpu_no_iteration_bound (s : SimState) (bus : List BusInput)
    (h : ∀ i j, i < j → (bus.map BusInput.sync).get? i = some true →
         (bus.map BusInput.sync).get? j ≠ some false) :
    step_cpu s bus = none := by
  rw [step_cpu, step_loop_eq_sync_count,
    sync_count_false_none (bus.map BusInput.sync) h, Option.map_none']

/-- Witness for C6: a trace on which SYNC is asserted on every cycle. -/
theorem step_cpu_no_iteration_bound_witness :
    (∀ i j, i < j →
      (([BusInput.mk 0 true true 0, BusInput.mk 1 true true 0].map
          BusInput.sync).get? i = some true) →
      (([BusInput.mk 0 true true 0, BusInput.mk 1 true true 0].map
          BusInput.sync).get? j ≠ some false)) ∧
    step_cpu (SimState.mk (fun _ => 0) [] true)
      [BusInput.mk 0 true true 0, BusInput.mk 1 true true 0] = none := by
  have h : ∀ i j, i < j →
      (([BusInput.mk 0 true true 0, BusInput.mk 1 true true 0].map
          BusInput.sync).get? i = some true) →
      (([BusInput.mk 0 true true 0, BusInput.mk 1 true true 0].map
          BusInput.sync).get? j ≠ some false) := by
    intro i j hij hi hj
    rcases j with _ | _ | j
    · omega
    · exact absurd hj (by decide)
    · rw [List.map_cons, List.map_cons, List.map_nil,
        List.get?_cons_succ, List.get?_cons_succ, List.get?_nil] at hj
      exact Option.noConfusion hj
  exact ⟨h, step_cpu_no_iteration_bound (SimState.mk (fun _ => 0) [] true)
    [BusInput.mk 0 true true 0, BusInput.mk 1 true true 0] h⟩

theorem wrap_addr_ne (address u v : Nat) (huv : u < v) (hv : v - u < 65536) :
    (address + u) % 65536 ≠ (address + v) % 65536 := by
  intro heq
  omega

theorem load_loop_first_invalid (address size : Nat) (hsize : size ≤ 65536) :
    ∀ (k i : Nat) (mem : Nat → Nat) (input : List Nat),
      i + k < size →
      k < input.length →
      (∀ t, t < k → (address + (i + t)) % 65536 < MEMORY_SIZE) →
      MEMORY_SIZE ≤ (address + (i + k)) % 65536 →
      ∃ mem', load_loop mem address size i input =
          some (mem', i + k, input.drop (k + 1),
            [OutEvent.str "Error: Invalid address during load.\n"]) ∧
        (∀ t, t < k → mem' ((address + (i + t)) % 65536) = input.getD t 0 % 256) ∧
        (∀ a, (∀ t, t < k → a ≠ (address + (i + t)) % 65536) → mem' a = mem a) := by
  intro k
  induction k with
  | zero =>
    intro i mem input hik hlen _hvalid hinv
    cases input with
    | nil => simp at hlen
    | cons d rest =>
      have hi : i < size := by omega
      have hw : ¬ (address + i) % 65536 < MEMORY_SIZE := by omega
      refine ⟨mem, ?_, ?_, ?_⟩
      · rw [load_loop, dif_pos hi]
        simp only [write_memory, if_neg hw]
        simp
      · intro t ht
        omega
      · intro a _
        rfl
  | succ k ih =>
    intro i mem input hik hlen hvalid hinv
    cases input with
    | nil => simp at hlen
    | cons d rest =>
      have hi : i < size := by omega
      have hv0 : (address + i) % 65536 < MEMORY_SIZE := by
        have := hvalid 0 (by omega)
        simpa using this
      set addr_i := (address + i) % 65536 with haddr_i
      set mem1 : Nat → Nat := fun a => if a = addr_i then d % 256 else mem a
        with hmem1
      have hrec := ih (i + 1) mem1 rest (by omega)
        (by simpa using hlen)
        (by
          intro t ht
          have := hvalid (t + 1) (by omega)
          have harith : i + 1 + t = i + (t + 1) := by omega
          rw [harith]
          exact this)
        (by
          have harith : i + 1 + k = i + (k + 1) := by omega
          rw [harith]
          exact hinv)
      obtain ⟨mem', heq, hwritten, hother⟩ := hrec
      have hne_i : ∀ t, t < k → addr_i ≠ (address + (i + 1 + t)) % 65536 := by
        intro t ht
        exact wrap_addr_ne address i (i + 1 + t) (by omega) (by omega)
      refine ⟨mem', ?_, ?_, ?_⟩
      · rw [load_loop, dif_pos hi]
        simp only [write_memory, if_pos hv0]
        rw [heq]
        have harith : i + 1 + k = i + (k + 1) := by omega
        rw [harith]
        rfl
      · intro t ht
        cases t with
        | zero =>
          have hmem'_i : mem' addr_i = mem1 addr_i := hother addr_i hne_i
          rw [Nat.add_zero, ← haddr_i, hmem'_i, hmem1]
          simp [List.getD_cons_zero]
        | succ t =>
          have := hwritten t (by omega)
          have harith : i + 1 + t = i + (t + 1) := by omega
          rw [harith] at this
          rw [this]
          simp [List.getD_cons_succ]
      · intro a ha
        have h1 : mem' a = mem1 a := by
          apply hother
          intro t ht
          have := ha (t + 1) (by omega)
          have harith : i + 1 + t = i + (t + 1) := by omega
          rw [harith]
          exact this
        have h2 : a ≠ addr_i := by
          have := ha 0 (by omega)
          simpa using this
        rw [h1, hmem1]
        simp [h2]

/-- C7: a `Load` command with `size = 0` reports success and performs no
writes; a `Load` whose first invalid address occurs at offset `i` writes
the received bytes at `address, …, address+i-1` (16-bit wrap-around
addresses), leaves the failing address and every other byte of memory
untouched (no rollback of the bytes already written), consumes `i + 1`
data bytes, and reports the partial-failure error instead of the success
message. -/
theorem load_cmd_spec (mem : Nat → Nat) (address size i : Nat)
    (input : List Nat) (hsize : size ≤ 65536) (hi : i < size)
    (hlen : i < input.length)
    (hvalid : ∀ k, k < i → (address + k) % 65536 < MEMORY_SIZE)
    (hinv : MEMORY_SIZE ≤ (address + i) % 65536) :
    (∀ (m : Nat → Nat) (inp : List Nat), load_cmd m address 0 inp =
      some (m, inp, [OutEvent.str "Data loaded successfully.\n"])) ∧
    ∃ mem', load_cmd mem address size input =
        some (mem', input.drop (i + 1),
          [OutEvent.str "Error: Invalid address during load.\n"]) ∧
      (∀ k, k < i → mem' ((address + k) % 65536) = input.getD k 0 % 256) ∧
      (∀ a, (∀ k, k < i → a ≠ (address + k) % 65536) → mem' a = mem a) := by
  constructor
  · intro m inp
    simp only [load_cmd]
    rw [load_loop.eq_def]
    simp
  · obtain ⟨mem', heq, hwritten, hother⟩ :=
      load_loop_first_invalid address size hsize i 0 mem input
        (by omega) hlen
        (by intro t ht; simpa using hvalid t ht)
        (by simpa using hinv)
    refine ⟨mem', ?_, ?_, ?_⟩
    · simp only [load_cmd]
      rw [heq]
      have hne : ¬ (i = size) := by omega
      simp [Option.bind, hne]
    · intro k hk
      have := hwritten k hk
      simpa using this
    · intro a ha
      apply hother
      intro t ht
      simpa using ha t ht

/-- Witness for C7: loading 4 bytes at address 4094 fails at offset 2
(address 4096); bytes at 4094 and 4095 are written, nothing else. -/
theorem load_cmd_spec_witness :
    (4 : Nat) ≤ 65536 ∧ (2 : Nat) < 4 ∧
    (2 : Nat) < ([17, 34, 51, 68] : List Nat).length ∧
    (∀ k, k < 2 → (4094 + k) % 65536 < MEMORY_SIZE) ∧
    MEMORY_SIZE ≤ (4094 + 2) % 65536 ∧
    ((∀ (m : Nat → Nat) (inp : List Nat), load_cmd m 4094 0 inp =
       some (m, inp, [OutEvent.str "Data loaded successfully.\n"])) ∧
     ∃ mem', load_cmd (fun _ => 0) 4094 4 [17, 34, 51, 68] =
         some (mem', ([17, 34, 51, 68] : List Nat).drop 3,
           [OutEvent.str "Error: Invalid address during load.\n"]) ∧
       (∀ k, k < 2 → mem' ((4094 + k) % 65536) =
         ([17, 34, 51, 68] : List Nat).getD k 0 % 256) ∧
       (∀ a, (∀ k, k < 2 → a ≠ (4094 + k) % 65536) → mem' a = (fun _ => (0 : Nat)) a)) :=
  ⟨by decide, by decide, by decide, by decide, by decide,
   load_cmd_spec (fun _ => 0) 4094 4 2 [17, 34, 51, 68]
     (by decide) (by decide) (by decide) (by decide) (by decide)⟩

/-- C10: a `'B'` (set breakpoint) command arriving while the table is full
reports the table-full error before consuming the two address bytes: the
dispatcher leaves `a :: b :: rest` in the stream, and the next dispatcher
invocation will read `a` as its command byte.  By contrast, on a non-full
table the same command consumes both address bytes, appends the breakpoint
and reports success. -/
theorem breakpoint_full_leaves_args (s : SimState) (a b : Nat)
    (rest : List Nat) (bus : List BusInput)
    (hfull : MAX_BREAKPOINTS ≤ s.bps.length) :
    handle_serial_command s (66 :: a :: b :: rest) bus =
      some (s, a :: b :: rest,
        [OutEvent.str "Error: Maximum number of breakpoints reached.\n"]) ∧
    receive_byte (a :: b :: rest) = some (a % 256, b :: rest) ∧
    (∀ s2 : SimState, s2.bps.length < MAX_BREAKPOINTS →
      handle_serial_command s2 (66 :: a :: b :: rest) bus =
        some ({ s2 with bps := s2.bps ++ [(a % 256) * 256 + b % 256] }, rest,
          [OutEvent.str "Breakpoint set at address 0x",
           OutEvent.hex (((a % 256) * 256 + b % 256) / 256),
           OutEvent.hex (((a % 256) * 256 + b % 256) % 256),
           OutEvent.str ".\n"])) := by
  refine ⟨?_, rfl, ?_⟩
  · simp [handle_serial_command, receive_byte, hfull]
  · intro s2 hs2
    have h : ¬ MAX_BREAKPOINTS ≤ s2.bps.length := by omega
    simp [handle_serial_command, receive_byte, h, bp_add]

/-- Witness for C10 with a full table of ten breakpoints and argument
bytes 1 and 2. -/
theorem breakpoint_full_leaves_args_witness :
    MAX_BREAKPOINTS ≤
      (SimState.mk (fun _ => 0) [0, 1, 2, 3, 4, 5, 6, 7, 8, 9] true).bps.length ∧
    (handle_serial_command
        (SimState.mk (fun _ => 0) [0, 1, 2, 3, 4, 5, 6, 7, 8, 9] true)
        (66 :: 1 :: 2 :: []) [] =
      some (SimState.mk (fun _ => 0) [0, 1, 2, 3, 4, 5, 6, 7, 8, 9] true,
        1 :: 2 :: [],
        [OutEvent.str "Error: Maximum number of breakpoints reached.\n"]) ∧
     receive_byte (1 :: 2 :: []) = some (1 % 256, 2 :: []) ∧
     (∀ s2 : SimState, s2.bps.length < MAX_BREAKPOINTS →
       handle_serial_command s2 (66 :: 1 :: 2 :: []) [] =
         some ({ s2 with bps := s2.bps ++ [(1 % 256) * 256 + 2 % 256] }, [],
           [OutEvent.str "Breakpoint set at address 0x",
            OutEvent.hex (((1 % 256) * 256 + 2 % 256) / 256),
            OutEvent.hex (((1 % 256) * 256 + 2 % 256) % 256),
            OutEvent.str ".\n"]))) :=
  ⟨by decide,
   breakpoint_full_leaves_args
     (SimState.mk (fun _ => 0) [0, 1, 2, 3, 4, 5, 6, 7, 8, 9] true)
     1 2 [] [] (by decide)⟩

/-- C9: `calculate_checksum` computes the XOR of all bytes of the buffer
(a pure function of the buffer alone), and the checksum of the empty
buffer is 0. -/
theorem calculate_checksum_spec :
    (∀ data, calculate_checksum data = xor_all data) ∧
    calculate_checksum [] = 0 := by
  constructor
  · intro data
    rw [calculate_checksum, checksum_foldl_shift]
    exact Nat.zero_xor _
  · rfl

end Mega2560
